import Mathlib

/-!
Verification of the rawparser library (a Go library extracting embedded JPEGs
and metadata from TIFF-based camera RAW files) against its natural-language
specification.  The Go sources are shallowly embedded: a file is a `List Nat`
of byte values, Go's `uint16`/`uint32` arithmetic is `Nat` with explicit
`% 2^w` at the points where the source casts, fallible operations return an
`Option GoErr` alongside their result, and Go panics are modelled by an outer
`Option` (`none` = panic).  Go `float64` values stored by this code are either
exact small integers (resolution ratios) or the single constant
`270 * math.Pi / 180`; they are represented exactly as rationals, radian
values being recorded as the rational coefficient of π (see `rot270Rads`).
-/

namespace RawParser

/-- Error values produced by the embedded code.  The payloads keep distinct
error sites distinguishable, so that "the error propagates unchanged" is a
meaningful statement. -/
inductive GoErr where
  /-- `readField`: "read %d bytes; expected %d". -/
  | shortRead (got expected : Nat)
  /-- `os.File.ReadAt` returning `io.EOF` on a short read. -/
  | eof
  /-- `NefParser.ProcessFile`: "invalid jpeg length: %d". -/
  | invalidJpegLength (l : Int)
  /-- `parseDateTime`: malformed date/time token structure. -/
  | invalidDateTime
  /-- `toRfc822Date`: "invalid month: '%s'". -/
  | invalidMonth
  /-- `time.Parse` failure inside `parseDateTime`. -/
  | timeParseErr
  /-- `os.Open` failure in `ProcessFile`. -/
  | openErr
  /-- Result of the external JPEG codec collaborator. -/
  | codecErr
deriving DecidableEq, Repr

/-- The bytes actually delivered by `os.File.ReadAt` for a read of `n` bytes
at `offset`: everything available up to end of file (nothing for a negative
offset). -/
def readAtBytes (f : List Nat) (offset : Int) (n : Nat) : List Nat :=
  if offset < 0 then [] else (f.drop offset.toNat).take n

/-- Embedding of `readField` (tiffutils.go): read `n` bytes at `offset` into a
zero-initialised cache; the error is set iff fewer than `n` bytes were read.
The (partially filled, zero-padded) cache is returned in either case, exactly
as the Go function returns `cache` alongside the error. -/
def readField (offset : Int) (n : Nat) (f : List Nat) : List Nat × Option GoErr :=
  let got := readAtBytes f offset n
  (got ++ List.replicate (n - got.length) 0,
   if got.length = n then none else some (GoErr.shortRead got.length n))

/-- Embedding of `bytesToUShort` (tiffutils.go).  `buf` entries stand for Go
`byte`s; `% 256` realises the `uint8` typing of `buf[i]`.
Source: `if isBigEndian && isHostLittleEndian { val = b0<<8 | b1 } else
{ val = b1<<8 | b0 }`. -/
def bytesToUShort (isHostLittleEndian isBigEndian : Bool) (buf : List Nat) : Nat :=
  let b0 := buf.getD 0 0 % 256
  let b1 := buf.getD 1 0 % 256
  if isBigEndian && isHostLittleEndian then
    b0 * 256 + b1
  else
    b1 * 256 + b0

/-- Embedding of `bytesToUInt` (tiffutils.go): two `bytesToUShort` halves
composed with the same endianness rule. -/
def bytesToUInt (isHostLittleEndian isBigEndian : Bool) (buf : List Nat) : Nat :=
  let a := bytesToUShort isHostLittleEndian isBigEndian (buf.take 2)
  let b := bytesToUShort isHostLittleEndian isBigEndian (buf.drop 2)
  if isBigEndian && isHostLittleEndian then
    a * 65536 + b
  else
    b * 65536 + a

/-- Specification-side value of a 2-byte field: the bytes interpreted in the
file's native byte order ("bytes are read in the file's native byte order; if
the file's byte order differs from the host's native order, bytes are
byte-swapped, otherwise copied verbatim" — swapping into host order and then
reading natively always yields the file-order value).  Used to compare
`bytesToUShort` against the spec's contract. -/
def toUShortFileOrder (isBigEndian : Bool) (buf : List Nat) : Nat :=
  let b0 := buf.getD 0 0 % 256
  let b1 := buf.getD 1 0 % 256
  if isBigEndian then b0 * 256 + b1 else b1 * 256 + b0

/-- Embedding of `ifdEntry` (rawparser.go): one 12-byte TIFF directory
record. -/
structure ifdEntry where
  tag : Nat
  fieldType : Nat
  count : Nat
  valueOffset : Nat
deriving DecidableEq, Repr

/-- One iteration block of the `processIfd` loop (tiffutils.go): four reads of
2, 2, 4, 4 bytes, each checked and aborting with the partial list on error;
a fully decoded record is appended and the cursor advances by 12.  The
`pending` error is the error of the most recent read when the loop body has
not yet run (the entry-count read), returned as the Go function's final `err`
when the iteration count is exhausted. -/
def processIfdLoop (isHostLe isFileBe : Bool) (f : List Nat) :
    Nat → Int → List ifdEntry → Option GoErr → List ifdEntry × Option GoErr
  | 0, _, acc, pending => (acc, pending)
  | n + 1, offset, acc, _ =>
    match (readField offset 2 f).2 with
    | some e => (acc, some e)
    | none =>
      let tag := bytesToUShort isHostLe isFileBe (readField offset 2 f).1
      match (readField (offset + 2) 2 f).2 with
      | some e => (acc, some e)
      | none =>
        let fieldType := bytesToUShort isHostLe isFileBe (readField (offset + 2) 2 f).1
        match (readField (offset + 4) 4 f).2 with
        | some e => (acc, some e)
        | none =>
          let count := bytesToUInt isHostLe isFileBe (readField (offset + 4) 4 f).1
          match (readField (offset + 8) 4 f).2 with
          | some e => (acc, some e)
          | none =>
            let valueOffset := bytesToUInt isHostLe isFileBe (readField (offset + 8) 4 f).1
            processIfdLoop isHostLe isFileBe f n (offset + 12)
              (acc ++ [⟨tag, fieldType, count, valueOffset⟩]) none

/-- Embedding of `processIfd` (tiffutils.go): decode a 2-byte entry count at
`offset` (the count is taken from the zero-padded cache even if that read was
short, exactly as in the source, where the error is only surfaced via the
final return), then decode that many 12-byte records starting at
`offset + 2`. -/
def processIfd (isHostLe isFileBe : Bool) (offset : Int) (f : List Nat) :
    List ifdEntry × Option GoErr :=
  let entries := bytesToUShort isHostLe isFileBe (readField offset 2 f).1
  processIfdLoop isHostLe isFileBe f entries (offset + 2) [] (readField offset 2 f).2

/-- The entry count `processIfd` decodes at `offset`. -/
def ifdEntryCountAt (isHostLe isFileBe : Bool) (offset : Int) (f : List Nat) : Nat :=
  bytesToUShort isHostLe isFileBe (readField offset 2 f).1

/-- The 12-byte record decoded at absolute offset `o`:
`{tag:u16, fieldType:u16, count:u32, valueOrOffset:u32}`. -/
def ifdEntryAt (isHostLe isFileBe : Bool) (f : List Nat) (o : Int) : ifdEntry :=
  ⟨bytesToUShort isHostLe isFileBe (readField o 2 f).1,
   bytesToUShort isHostLe isFileBe (readField (o + 2) 2 f).1,
   bytesToUInt isHostLe isFileBe (readField (o + 4) 4 f).1,
   bytesToUInt isHostLe isFileBe (readField (o + 8) 4 f).1⟩

/-- Embedding of `nefHeader` (nefparser.go).  Field defaults are the Go zero
values, so a partially filled header returned on an early error path is
represented faithfully. -/
structure nefHeader where
  isBigEndian : Bool := false
  tiffMagicValue : Nat := 0
  tiffOffset : Int := 0
deriving DecidableEq, Repr

/-- Embedding of `cr2Header` (cr2parser.go). -/
structure cr2Header where
  isBigEndian : Bool := false
  tiffMagicValue : Nat := 0
  cr2MagicValue : List Char := []
  cr2MajorValue : Nat := 0
  cr2MinorValue : Nat := 0
  tiffOffset : Int := 0
deriving DecidableEq, Repr

/-- Embedding of `bytesToAsciiString` (tiffutils.go): byte-per-byte
conversion to characters.  (Go's `string(bytes)` keeps the raw bytes; all
string operations performed by this library are byte-wise, so code points
0–255 model them exactly.) -/
def bytesToASCIIString (bytes : List Nat) : List Char :=
  bytes.map fun b => Char.ofNat (b % 256)

/-- Embedding of `NefParser.processHeader` (nefparser.go): byte-order marker
at 0 (decoded with `isBigEndian := false`), flag set iff the marker value is
`0x4D4D`, TIFF magic at 2 and root-IFD offset at 4 decoded under the file's
detected byte order.  No field value is validated. -/
def nefProcessHeader (isHostLe : Bool) (f : List Nat) : nefHeader × Option GoErr :=
  match (readField 0 2 f).2 with
  | some e => ({}, some e)
  | none =>
    let byteOrder := bytesToUShort isHostLe false (readField 0 2 f).1
    let isBE := byteOrder == 0x4D4D
    match (readField 2 2 f).2 with
    | some e => ({ isBigEndian := isBE }, some e)
    | none =>
      let magic := bytesToUShort isHostLe isBE (readField 2 2 f).1
      match (readField 4 4 f).2 with
      | some e => ({ isBigEndian := isBE, tiffMagicValue := magic }, some e)
      | none =>
        let off := bytesToUInt isHostLe isBE (readField 4 4 f).1
        ({ isBigEndian := isBE, tiffMagicValue := magic, tiffOffset := (off : Int) }, none)

/-- Embedding of `Cr2Parser.processHeader` (cr2parser.go): like the NEF
variant, plus the 2-byte container magic at 8 (not endian-converted), and the
two 1-byte version numbers at 10 and 11.  No field value is validated. -/
def cr2ProcessHeader (isHostLe : Bool) (f : List Nat) : cr2Header × Option GoErr :=
  match (readField 0 2 f).2 with
  | some e => ({}, some e)
  | none =>
    let byteOrder := bytesToUShort isHostLe false (readField 0 2 f).1
    let isBE := byteOrder == 0x4D4D
    match (readField 2 2 f).2 with
    | some e => ({ isBigEndian := isBE }, some e)
    | none =>
      let magic := bytesToUShort isHostLe isBE (readField 2 2 f).1
      match (readField 4 4 f).2 with
      | some e => ({ isBigEndian := isBE, tiffMagicValue := magic }, some e)
      | none =>
        let off := (bytesToUInt isHostLe isBE (readField 4 4 f).1 : Int)
        match (readField 8 2 f).2 with
        | some e =>
          ({ isBigEndian := isBE, tiffMagicValue := magic, tiffOffset := off }, some e)
        | none =>
          let cr2Magic := bytesToASCIIString (readField 8 2 f).1
          match (readField 10 1 f).2 with
          | some e =>
            ({ isBigEndian := isBE, tiffMagicValue := magic, tiffOffset := off,
               cr2MagicValue := cr2Magic }, some e)
          | none =>
            let major := (readField 10 1 f).1.getD 0 0 % 256
            match (readField 11 1 f).2 with
            | some e =>
              ({ isBigEndian := isBE, tiffMagicValue := magic, tiffOffset := off,
                 cr2MagicValue := cr2Magic, cr2MajorValue := major }, some e)
            | none =>
              let minor := (readField 11 1 f).1.getD 0 0 % 256
              ({ isBigEndian := isBE, tiffMagicValue := magic, tiffOffset := off,
                 cr2MagicValue := cr2Magic, cr2MajorValue := major,
                 cr2MinorValue := minor }, none)

/-- Embedding of `processShortValue` (tiffutils.go): extract the left-justified
16-bit value from a 4-byte field — high 16 bits for a big-endian file, low 16
bits otherwise.  The `% 65536` realises the `uint16(...)` casts. -/
def processShortValue (isFileBe : Bool) (val : Nat) : Nat :=
  let msb := val / 65536
  let lsb := val % 65536
  if isFileBe then msb % 65536 else lsb % 65536

/-- The radian value the source stores for orientation code 8:
`270 * math.Pi / 180`.  Radian values are represented exactly as the rational
coefficient of π, so this constant is `270 / 180` (and `0.0` radians is `0`).
(`mkRat` rather than `/` so that the kernel can evaluate it.) -/
def rot270Rads : ℚ := mkRat 270 180

/-- Embedding of `processRationalEntry` (tiffutils.go): numerator at `offset`,
denominator at `offset + 4` (the numerator read's error is overwritten by the
denominator read's, as in the source), ratio = the Go expression
`float64(num / den)` — a truncating `uint32` division widened afterwards —
when the denominator is positive, else `0`.  The quotient is below `2^32`, so
the rational value is exactly the `float64` the source produces. -/
def processRationalEntry (isHostLe isFileBe : Bool) (offset : Nat) (f : List Nat) :
    Nat × Nat × ℚ × Option GoErr :=
  let num := bytesToUInt isHostLe isFileBe (readField (offset : Int) 4 f).1
  let den := bytesToUInt isHostLe isFileBe (readField ((offset : Int) + 4) 4 f).1
  let r : ℚ := if den > 0 then ((num / den : Nat) : ℚ) else 0
  (num, den, r, (readField ((offset : Int) + 4) 4 f).2)

/-- Embedding of `processAsciiEntry` (tiffutils.go): read `entry.count` bytes
at `entry.valueOffset` and convert them to a string. -/
def processASCIIEntry (entry : ifdEntry) (f : List Nat) : List Char × Option GoErr :=
  (bytesToASCIIString (readField (entry.valueOffset : Int) entry.count f).1,
   (readField (entry.valueOffset : Int) entry.count f).2)

/-- Embedding of `jpegInfo` (rawparser.go); defaults are the Go zero values. -/
structure jpegInfo where
  orientation : ℚ := 0
  offset : Int := 0
  length : Int := 0
  xRes : Nat := 0
  yRes : Nat := 0
  xResFloat : ℚ := 0
  yResFloat : ℚ := 0
deriving DecidableEq, Repr

/-- The components `time.Parse` extracts for the layout `"02 Jan 06 15:04"`.
`time.Date`'s day-overflow normalisation is not modelled; theorems about
successful parses therefore carry a calendar-validity hypothesis (on valid
components the normalisation is the identity). -/
structure goDateTime where
  year : Int
  month : Nat
  day : Nat
  hour : Nat
  minute : Nat
  second : Nat
deriving DecidableEq, Repr

/-- Result of `parseDateTime`: Go returns `(time.Time, error)` but can also
panic on the unguarded `dateTokens[0][2]` / `dateTokens[0][3]` indexing. -/
inductive dtResult where
  | panicked
  | failed (e : GoErr)
  | ok (t : goDateTime)
deriving DecidableEq, Repr

/-- Embedding of Go's `strings.Split` for a one-character separator: split at
every occurrence, keeping empty fields; the result is never empty. -/
def splitChar (sep : Char) : List Char → List (List Char)
  | [] => [[]]
  | c :: cs =>
    match splitChar sep cs with
    | [] => [[]]
    | t :: ts => if c = sep then [] :: t :: ts else (c :: t) :: ts

/-- The month lookup table of `toRfc822Date` (rawparser.go), together with the
month number that `time.Parse`'s `shortMonthNames` lookup assigns to each
3-letter abbreviation. -/
def monthTable : List (List Char × List Char × Nat) :=
  [(['0', '1'], ['J', 'a', 'n'], 1),
   (['0', '2'], ['F', 'e', 'b'], 2),
   (['0', '3'], ['M', 'a', 'r'], 3),
   (['0', '4'], ['A', 'p', 'r'], 4),
   (['0', '5'], ['M', 'a', 'y'], 5),
   (['0', '6'], ['J', 'u', 'n'], 6),
   (['0', '7'], ['J', 'u', 'l'], 7),
   (['0', '8'], ['A', 'u', 'g'], 8),
   (['0', '9'], ['S', 'e', 'p'], 9),
   (['1', '0'], ['O', 'c', 't'], 10),
   (['1', '1'], ['N', 'o', 'v'], 11),
   (['1', '2'], ['D', 'e', 'c'], 12)]

/-- Embedding of `toRfc822Date` (rawparser.go): exact lookup of the month
token `dateTokens[1]` in the `"01"`..`"12"` table; `none` models the
"invalid month" error. -/
def toRfc822Date (dateTokens : List (List Char)) : Option (List Char) :=
  (monthTable.find? fun r => r.1 = dateTokens.getD 1 []).map fun r => r.2.1

/-- Numeric value of a digit character (Go's `c - '0'`). -/
def dval (c : Char) : Nat := c.toNat - 48

/-- Go `time.Parse`'s two-digit-year mapping: a year `≥ 69` lands in 19xx,
anything else in 20xx. -/
def goYearFrom2 (yy : Int) : Int := if 69 ≤ yy then 1900 + yy else 2000 + yy

/-- Go `time` package `isLeap`. -/
def goIsLeap (y : Int) : Bool := y % 4 == 0 && (y % 100 != 0 || y % 400 == 0)

/-- Go `time` package `daysIn(m, year)`: days in a month (calendar-validity
bound used by the claims about successful parses). -/
def goDaysIn (m : Nat) (y : Int) : Nat :=
  if m = 2 then (if goIsLeap y then 29 else 28)
  else if m = 4 ∨ m = 6 ∨ m = 9 ∨ m = 11 then 30
  else 31

/-- Go `time` package `getnum`: one or two leading digits of the value
stream; with `fixed` set, exactly two digits are required. -/
def goGetnum (fixed : Bool) (s : List Char) : Option (Nat × List Char) :=
  match s with
  | [] => none
  | a :: rest =>
    if a.isDigit then
      match rest with
      | b :: rest2 =>
        if b.isDigit then some (10 * dval a + dval b, rest2)
        else if fixed then none else some (dval a, rest)
      | [] => if fixed then none else some (dval a, [])
    else none

/-- Go `time.Parse`'s `stdYear` step: take exactly two characters and run the
package-private `atoi` on them (an optional sign followed by digits,
entirely consumed). -/
def goAtoiYear (s : List Char) : Option (Int × List Char) :=
  match s with
  | c1 :: c2 :: rest =>
    if c1.isDigit ∧ c2.isDigit then
      some ((10 * dval c1 + dval c2 : Nat), rest)
    else if (c1 = '-' ∨ c1 = '+') ∧ c2.isDigit then
      some ((if c1 = '-' then -((dval c2 : Nat) : Int) else ((dval c2 : Nat) : Int)), rest)
    else none
  | _ => none

/-- Go `time.Parse`'s `stdMonth` step for the 3-letter month names.  (Go's
`lookup` is a case-insensitive prefix match; the only month strings reaching
it here are the exact-case table entries produced by `toRfc822Date`, for
which the exact match below coincides.) -/
def goMonthLookup (s : List Char) : Option (Nat × List Char) :=
  match s with
  | m1 :: m2 :: m3 :: rest =>
    match monthTable.find? fun r => r.2.1 = [m1, m2, m3] with
    | some r => some (r.2.2, rest)
    | none => none
  | _ => none

/-- A literal character of the layout, matched against the value stream. -/
def goExpect (c : Char) (s : List Char) : Option (List Char) :=
  match s with
  | x :: rest => if x = c then some rest else none
  | [] => none

/-- The `"15:04"` tail of the layout: 1-or-2-digit hour, literal `:`,
zero-padded 2-digit minute; trailing input is an "extra text" error; hour and
minute are range-checked as in Go's `Parse`. -/
def goParseHM (s : List Char) : Option (Nat × Nat) := do
  let (hour, s) ← goGetnum false s
  let s ← goExpect ':' s
  let (minute, s) ← goGetnum true s
  if s ≠ [] then none
  else if 24 ≤ hour then none
  else if 60 ≤ minute then none
  else some (hour, minute)

/-- Embedding of Go `time.Parse` specialised to the fixed layout
`"02 Jan 06 15:04"` used by `parseDateTime`: zero-padded 2-digit day, literal
space, 3-letter month, space, 2-character year via `atoi`, space, then the
hour-minute tail `goParseHM`; a two-digit year `>= 69` maps to 19xx,
otherwise to 20xx.  Seconds do not occur in the layout. -/
def goTimeParse (s : List Char) : Option goDateTime := do
  let (day, s) ← goGetnum true s
  let s ← goExpect ' ' s
  let (month, s) ← goMonthLookup s
  let s ← goExpect ' ' s
  let (yy, s) ← goAtoiYear s
  let s ← goExpect ' ' s
  let (hour, minute) ← goParseHM s
  some ⟨goYearFrom2 yy, month, day, hour, minute, 0⟩

/-- Embedding of `parseDateTime` (rawparser.go).  Split on `' '` into exactly
two tokens, split each on `':'` into exactly three sub-tokens, map the month
token through `toRfc822Date`, then index characters 2 and 3 of the year token
— Go panics when the year token is shorter than 4 bytes (`dtResult.panicked`)
— reassemble `day month yy hour:minute` and hand it to `time.Parse`,
discarding the seconds token entirely.  (Go's `string(b)` widens bytes
≥ 0x80 to multi-byte UTF-8; both that widening and this atomic-character
model make the subsequent numeric parse fail, so the results agree.) -/
def parseDateTime (s : List Char) : dtResult :=
  let split := splitChar ' ' s
  if split.length = 2 then
    let dateToken := split.getD 0 []
    let timeToken := split.getD 1 []
    let dateTokens := splitChar ':' dateToken
    let timeTokens := splitChar ':' timeToken
    if dateTokens.length = 3 ∧ timeTokens.length = 3 then
      match toRfc822Date dateTokens with
      | none => .failed .invalidMonth
      | some monthStr =>
        match (dateTokens.getD 0 [])[2]?, (dateTokens.getD 0 [])[3]? with
        | some c2, some c3 =>
          let dateStr := dateTokens.getD 2 [] ++ [' '] ++ monthStr ++ [' '] ++ [c2, c3]
          match goTimeParse (dateStr ++ [' '] ++ timeTokens.getD 0 [] ++ [':'] ++
              timeTokens.getD 1 []) with
          | some t => .ok t
          | none => .failed .timeParseErr
        | _, _ => .panicked
    else .failed .invalidDateTime
  else .failed .invalidDateTime

/-- The EXIF-IFD inner loop shared verbatim by both `processIfds` variants:
for each tag-`0x9004` entry, read the ASCII date string (skipping the entry
on a read error) and run `parseDateTime`; the parse error is discarded, but
`cDate` is assigned the returned time in either case — the Go zero value
(`none` here) when the parse failed — and a `parseDateTime` panic propagates
(outer `none`). -/
def goExifDateFold (f : List Nat) :
    List ifdEntry → Option goDateTime → Option (Option goDateTime)
  | [], d => some d
  | en :: rest, d =>
    if en.tag = 0x9004 then
      let s := (processASCIIEntry en f).1
      match (processASCIIEntry en f).2 with
      | some _ => goExifDateFold f rest d
      | none =>
        match parseDateTime s with
        | .panicked => none
        | .failed _ => goExifDateFold f rest none
        | .ok t => goExifDateFold f rest (some t)
    else goExifDateFold f rest d

/-- The SubIFD 0 inner loop of `NefParser.processIfds`: resolution rationals
(whose read errors are assigned to a dead local `err` and thus discarded),
JPEG offset (tag `0x0201`) and JPEG length (tag `0x0202`). -/
def nefSubIfdFold (isHostLe isFileBe : Bool) (f : List Nat) :
    List ifdEntry → jpegInfo → jpegInfo
  | [], j => j
  | se :: rest, j =>
    let j1 := if se.tag = 0x011a then
        let pr := processRationalEntry isHostLe isFileBe se.valueOffset f
        { j with xRes := pr.1, xResFloat := pr.2.2.1 }
      else j
    let j2 := if se.tag = 0x011b then
        let pr := processRationalEntry isHostLe isFileBe se.valueOffset f
        { j1 with yRes := pr.1, yResFloat := pr.2.2.1 }
      else j1
    let j3 := if se.tag = 0x0201 then { j2 with offset := (se.valueOffset : Int) } else j2
    let j4 := if se.tag = 0x0202 then { j3 with length := (se.valueOffset : Int) } else j3
    nefSubIfdFold isHostLe isFileBe f rest j4

/-- The root-IFD entry loop of `NefParser.processIfds`: tag `0x014a` reads the
indirect SubIFD pointer (silently skipping the entry on a pointer-read error)
and walks SubIFD 0, returning early if that IFD decode fails; tag `0x0112`
sets the orientation; tag `0x8769` walks the EXIF IFD, returning early if that
IFD decode fails.  The outer result is `none` when `parseDateTime` panicked. -/
def nefIfdLoop (isHostLe isFileBe : Bool) (f : List Nat) :
    List ifdEntry → jpegInfo → Option goDateTime →
    Option (jpegInfo × Option goDateTime × Option GoErr)
  | [], j, d => some (j, d, none)
  | en :: rest, j, d =>
    if en.tag = 0x014a then
      match (readField (en.valueOffset : Int) 4 f).2 with
      | some _ => nefIfdLoop isHostLe isFileBe f rest j d
      | none =>
        let subOff : Int := (bytesToUInt isHostLe isFileBe (readField (en.valueOffset : Int) 4 f).1 : Int)
        match (processIfd isHostLe isFileBe subOff f).2 with
        | some e => some (j, d, some e)
        | none =>
          nefIfdLoop isHostLe isFileBe f rest
            (nefSubIfdFold isHostLe isFileBe f (processIfd isHostLe isFileBe subOff f).1 j) d
    else if en.tag = 0x0112 then
      let o := processShortValue isFileBe en.valueOffset
      nefIfdLoop isHostLe isFileBe f rest
        { j with orientation := if o = 8 then rot270Rads else 0 } d
    else if en.tag = 0x8769 then
      match (processIfd isHostLe isFileBe (en.valueOffset : Int) f).2 with
      | some e => some (j, d, some e)
      | none =>
        match goExifDateFold f (processIfd isHostLe isFileBe (en.valueOffset : Int) f).1 d with
        | none => none
        | some d1 => nefIfdLoop isHostLe isFileBe f rest j d1
    else nefIfdLoop isHostLe isFileBe f rest j d

/-- Embedding of `NefParser.processIfds` (nefparser.go).  `none` = panic. -/
def nefProcessIfds (isHostLe : Bool) (h : nefHeader) (f : List Nat) :
    Option (jpegInfo × Option goDateTime × Option GoErr) :=
  match (processIfd isHostLe h.isBigEndian h.tiffOffset f).2 with
  | some e => some ({}, none, some e)
  | none =>
    nefIfdLoop isHostLe h.isBigEndian f (processIfd isHostLe h.isBigEndian h.tiffOffset f).1 {} none

/-- The root-IFD entry loop of `Cr2Parser.processIfds`.  `errState` is the
function-level `err` variable: the rational-entry cases assign their read
error to it (so the function can end reporting such an error), the EXIF case
returns early on an IFD decode error, and everything else leaves it
untouched.  The outer result is `none` when `parseDateTime` panicked. -/
def cr2IfdLoop (isHostLe isFileBe : Bool) (f : List Nat) :
    List ifdEntry → jpegInfo → Option goDateTime → Option GoErr →
    Option (jpegInfo × Option goDateTime × Option GoErr)
  | [], j, d, errState => some (j, d, errState)
  | en :: rest, j, d, errState =>
    if en.tag = 0x0111 then
      cr2IfdLoop isHostLe isFileBe f rest { j with offset := (en.valueOffset : Int) } d errState
    else if en.tag = 0x0112 then
      let o := processShortValue isFileBe en.valueOffset
      cr2IfdLoop isHostLe isFileBe f rest
        { j with orientation := if o = 8 then rot270Rads else 0 } d errState
    else if en.tag = 0x0117 then
      cr2IfdLoop isHostLe isFileBe f rest { j with length := (en.valueOffset : Int) } d errState
    else if en.tag = 0x011a then
      let pr := processRationalEntry isHostLe isFileBe en.valueOffset f
      cr2IfdLoop isHostLe isFileBe f rest { j with xRes := pr.1, xResFloat := pr.2.2.1 } d pr.2.2.2
    else if en.tag = 0x011b then
      let pr := processRationalEntry isHostLe isFileBe en.valueOffset f
      cr2IfdLoop isHostLe isFileBe f rest { j with yRes := pr.1, yResFloat := pr.2.2.1 } d pr.2.2.2
    else if en.tag = 0x8769 then
      match (processIfd isHostLe isFileBe (en.valueOffset : Int) f).2 with
      | some e => some (j, d, some e)
      | none =>
        match goExifDateFold f (processIfd isHostLe isFileBe (en.valueOffset : Int) f).1 d with
        | none => none
        | some d1 => cr2IfdLoop isHostLe isFileBe f rest j d1 errState
    else cr2IfdLoop isHostLe isFileBe f rest j d errState

/-- Embedding of `Cr2Parser.processIfds` (cr2parser.go).  `none` = panic. -/
def cr2ProcessIfds (isHostLe : Bool) (h : cr2Header) (f : List Nat) :
    Option (jpegInfo × Option goDateTime × Option GoErr) :=
  match (processIfd isHostLe h.isBigEndian h.tiffOffset f).2 with
  | some e => some ({}, none, some e)
  | none =>
    cr2IfdLoop isHostLe h.isBigEndian f (processIfd isHostLe h.isBigEndian h.tiffOffset f).1
      {} none none

/-- Embedding of `os.File.ReadAt` into a fresh `make([]byte, n)` buffer: the
error (`io.EOF`) is set iff fewer than `n` bytes were available; a zero-length
read never fails. -/
def goReadAt (f : List Nat) (offset : Int) (n : Nat) : List Nat × Option GoErr :=
  let got := readAtBytes f offset n
  (got ++ List.replicate (n - got.length) 0,
   if got.length = n then none else some GoErr.eof)

/-- Embedding of `filepath.Base` (Unix rules), used by
`genExtractedJpegName`. -/
def goFilepathBase (p : List Char) : List Char :=
  if p = [] then ['.']
  else
    let q := (p.reverse.dropWhile fun c => c = '/').reverse
    let r := (q.reverse.takeWhile fun c => c ≠ '/').reverse
    if r = [] then ['/'] else r

/-- Embedding of `genExtractedJpegName` (rawparser.go):
`destDir + filepath.Base(f.Name()) + suffix`. -/
def genExtractedJpegName (fileName destDir suffix : List Char) : List Char :=
  destDir ++ goFilepathBase fileName ++ suffix

/-- Embedding of `RawFileInfo` (rawparser.go).  The opened file's bytes stand
in for the path-addressed file system. -/
structure RawFileInfo where
  file : List Char := []
  destDir : List Char := []
  quality : Int := 0
  numOfChannels : Int := 0
deriving DecidableEq, Repr

/-- Embedding of `RawFile` (rawparser.go); defaults are the Go zero values
(`createDate = none` is the `time.Time` zero value). -/
structure RawFile where
  createDate : Option goDateTime := none
  fileName : List Char := []
  jpegPath : List Char := []
  jpegOrientation : ℚ := 0
deriving DecidableEq, Repr

/-- The `"_extracted.jpg"` suffix both parsers pass to
`genExtractedJpegName`. -/
def extractedSuffix : List Char :=
  ['_', 'e', 'x', 't', 'r', 'a', 'c', 't', 'e', 'd', '.', 'j', 'p', 'g']

/-- Embedding of the `decodeAndWriteJpeg` method (identical in both parsers):
derive the output name, read `j.length` bytes at `j.offset` (returning the
read error without touching the codec on failure), then hand the buffer to
the external codec collaborator, whose result (an oracle here) is returned.
The `Bool` records whether the codec collaborator was invoked.
(`j.length` is always a non-negative `int64(uint32)` at the call sites;
`Int.toNat` realises `make([]byte, j.length)`.) -/
def decodeAndWriteJpegM (f : List Nat) (j : jpegInfo) (fileName destDir : List Char)
    (codec : List Nat → Option GoErr) : List Char × Option GoErr × Bool :=
  let jpegFileName := genExtractedJpegName fileName destDir extractedSuffix
  match (goReadAt f j.offset j.length.toNat).2 with
  | some e => (jpegFileName, some e, false)
  | none => (jpegFileName, codec (goReadAt f j.offset j.length.toNat).1, true)

/-- Embedding of `NefParser.ProcessFile` (nefparser.go).  `opened` is the
result of `os.Open` (`none` = open failure), `codec` the external JPEG codec
collaborator; the result's `Bool` records whether the codec was invoked and
the outer `Option` is `none` on a panic.  The header error and the
`decodeAndWriteJpeg` error are assigned to a block-local `err` that shadows
the named return value, so the function ends with `return nef, err` reading
the outer, still-`nil` error — modelled faithfully below. -/
def nefProcessFile (isHostLe : Bool) (info : RawFileInfo) (opened : Option (List Nat))
    (codec : List Nat → Option GoErr) : Option (RawFile × Option GoErr × Bool) :=
  match opened with
  | none => some ({}, some .openErr, false)
  | some f =>
    let h := (nefProcessHeader isHostLe f).1
    match nefProcessIfds isHostLe h f with
    | none => none
    | some (j, cDate, e) =>
      match e with
      | some e1 => some ({}, some e1, false)
      | none =>
        if j.length ≤ 0 then some ({}, some (.invalidJpegLength j.length), false)
        else
          let dw := decodeAndWriteJpegM f j info.file info.destDir codec
          match dw.2.1 with
          | none =>
            some ({ fileName := info.file, createDate := cDate, jpegPath := dw.1,
                    jpegOrientation := j.orientation }, none, dw.2.2)
          | some _ => some ({}, none, dw.2.2)

/-- Embedding of `Cr2Parser.ProcessFile` (cr2parser.go).  The header error is
explicitly discarded (`h, _ :=`), and the `processIfds` /
`decodeAndWriteJpeg` errors are assigned to a block-local `err` shadowing the
named return value, so every post-open failure path falls through to
`return CR2, err` with the outer `nil` error — modelled faithfully below.
There is no JPEG-length check. -/
def cr2ProcessFile (isHostLe : Bool) (info : RawFileInfo) (opened : Option (List Nat))
    (codec : List Nat → Option GoErr) : Option (RawFile × Option GoErr × Bool) :=
  match opened with
  | none => some ({}, some .openErr, false)
  | some f =>
    let h := (cr2ProcessHeader isHostLe f).1
    match cr2ProcessIfds isHostLe h f with
    | none => none
    | some (j, cDate, e) =>
      match e with
      | some _ => some ({}, none, false)
      | none =>
        let dw := decodeAndWriteJpegM f j info.file info.destDir codec
        match dw.2.1 with
        | none =>
          some ({ fileName := info.file, createDate := cDate, jpegPath := dw.1,
                  jpegOrientation := j.orientation }, none, dw.2.2)
        | some _ => some ({}, none, dw.2.2)

/-- Specification-side description of an IFD body (`decodeIfd`'s contract):
`n` consecutive 12-byte records starting at `off`, in directory order,
advancing by 12 bytes per record. -/
def ifdEntriesSpec (isHostLe isFileBe : Bool) (f : List Nat) : Nat → Int → List ifdEntry
  | 0, _ => []
  | n + 1, off =>
    ifdEntryAt isHostLe isFileBe f off :: ifdEntriesSpec isHostLe isFileBe f n (off + 12)

/-- An 8-byte file with a valid little-endian TIFF prefix whose root-IFD
offset (16) lies beyond end of file, so the root IFD decode fails. -/
def cr2File8 : List Nat := [0x49, 0x49, 0x2A, 0x00, 0x10, 0x00, 0x00, 0x00]

/-- A 4-byte file: the NEF header's 4-byte offset read fails. -/
def nefFile4 : List Nat := [0x49, 0x49, 0x00, 0x00]

/-- A complete little-endian CR2 header (offset 12) followed by an IFD with
zero entries: tag interpretation succeeds and leaves the JPEG length 0. -/
def cr2File14 : List Nat :=
  [0x49, 0x49, 0x2A, 0x00, 0x0C, 0x00, 0x00, 0x00, 0x43, 0x52, 0x01, 0x00, 0x00, 0x00]

/-- A little-endian NEF header (offset 8) followed by an IFD with zero
entries: tag interpretation succeeds and leaves the JPEG length 0. -/
def nefFile10 : List Nat := [0x49, 0x49, 0x2A, 0x00, 0x08, 0x00, 0x00, 0x00, 0x00, 0x00]

/-- A file holding the rational 72/32 in little-endian byte order. -/
def ratSample : List Nat := [72, 0, 0, 0, 32, 0, 0, 0]

/-- A count-1 IFD at offset 0 with one record: tag `0x0111`, type 3, count 1,
value 8 (little-endian). -/
def ifdSample : List Nat :=
  [1, 0, 0x11, 0x01, 0x03, 0x00, 0x01, 0x00, 0x00, 0x00, 0x08, 0x00, 0x00, 0x00]

/-- Like `ifdSample` but with entry count 2, so the second record read runs
past end of file. -/
def ifdSampleShort : List Nat :=
  [2, 0, 0x11, 0x01, 0x03, 0x00, 0x01, 0x00, 0x00, 0x00, 0x08, 0x00, 0x00, 0x00]

/-- An 8-byte NEF header whose TIFF magic is `0x99` rather than 42. -/
def nefMagic99 : List Nat := [0x00, 0x00, 0x99, 0x00, 0x00, 0x00, 0x00, 0x00]

/-- A 12-byte CR2 header whose TIFF magic is `0x99` rather than 42. -/
def cr2Magic99 : List Nat :=
  [0x00, 0x00, 0x99, 0x00, 0x00, 0x00, 0x00, 0x00, 0x00, 0x00, 0x00, 0x00]

/-- The EXIF timestamp of the spec's concrete example. -/
def c7Example : List Char := "2010:08:10 12:11:07".toList

/-- A timestamp whose year token has only three characters: token counts and
the month lookup succeed, but `dateTokens[0][3]` is out of range. -/
def c10Input : List Char := "201:08:10 12:11:07".toList

/-- Claim C1: for every 2-byte input and all four (host, file) endianness
combinations, `bytesToUShort` should return the bytes interpreted in the
file's native byte order (byte-swapping exactly when host and file order
differ).  This holds on a little-endian host — bytes `[0xBB, 0xAA]` give
`0xAABB` for a little-endian file and `0xBBAA` for a big-endian file — but on
a big-endian host (`isHostLittleEndian = false`) with a big-endian file the
code takes the no-swap branch and returns the little-endian interpretation
`0xAABB` instead of the file-order value `0xBBAA`: the claim's iff fails at
that combination. -/
theorem bytesToUShort_host_endianness_bug :
    bytesToUShort true false [0xBB, 0xAA] = 0xAABB ∧
    bytesToUShort true true [0xBB, 0xAA] = 0xBBAA ∧
    toUShortFileOrder false [0xBB, 0xAA] = 0xAABB ∧
    toUShortFileOrder true [0xBB, 0xAA] = 0xBBAA ∧
    bytesToUShort false false [0xBB, 0xAA] = 0xAABB ∧
    bytesToUShort false true [0xBB, 0xAA] = 0xAABB ∧
    bytesToUShort false true [0xBB, 0xAA] ≠ toUShortFileOrder true [0xBB, 0xAA] := by
  decide

/-- Claim C2: `ProcessFile` was claimed to return either a fully populated
`RawFile` or a non-nil error, with header/IFD decode errors propagating
unchanged.  In the Go source the post-open errors are assigned to a
block-local `err` that shadows the named return value, so: on `cr2File8` the
root-IFD decode fails with a short read, yet `Cr2Parser.ProcessFile` returns
the zero-valued `RawFile` together with a `nil` error; and on `nefFile4` the
header decode fails (`read 0 bytes; expected 4`) but that error is never
checked — the error `NefParser.ProcessFile` returns is a different one,
produced later by the root-IFD walk at the garbage offset 0. -/
theorem processFile_err_shadowing_bug :
    cr2ProcessIfds true (cr2ProcessHeader true cr2File8).1 cr2File8 =
      some ({}, none, some (GoErr.shortRead 0 2)) ∧
    cr2ProcessFile true {} (some cr2File8) (fun _ => none) = some ({}, none, false) ∧
    nefProcessHeader true nefFile4 = ({}, some (GoErr.shortRead 0 4)) ∧
    nefProcessFile true {} (some nefFile4) (fun _ => none) =
      some ({}, some (GoErr.shortRead 0 2), false) := by
  decide

/-- Claim C3, counterexample: on `cr2File14` the Canon tag interpretation
succeeds with JPEG length 0, yet `Cr2Parser.ProcessFile` does not fail with a
missing-JPEG error — it invokes the codec collaborator (third component
`true`) on an empty buffer and returns a nil error. -/
theorem cr2ProcessFile_zero_length_invokes_codec :
    cr2ProcessIfds true (cr2ProcessHeader true cr2File14).1 cr2File14 =
      some ({}, none, none) ∧
    ({} : jpegInfo).length ≤ 0 ∧
    cr2ProcessFile true {} (some cr2File14) (fun _ => none) =
      some ({ jpegPath := '.' :: extractedSuffix }, none, true) := by
  decide

/-- Claim C3, amended: only the Nikon parser checks the JPEG length.  If its
tag interpretation succeeds and yields `length ≤ 0`, `NefParser.ProcessFile`
returns the invalid-jpeg-length error and the codec collaborator is never
invoked (the `false` component); the Canon parser performs no such check (see
the counterexample). -/
theorem nefProcessFile_zero_length_error (isHostLe : Bool) (info : RawFileInfo)
    (f : List Nat) (codec : List Nat → Option GoErr) (j : jpegInfo) (d : Option goDateTime)
    (hifds : nefProcessIfds isHostLe (nefProcessHeader isHostLe f).1 f = some (j, d, none))
    (hlen : j.length ≤ 0) :
    nefProcessFile isHostLe info (some f) codec =
      some ({}, some (GoErr.invalidJpegLength j.length), false) := by
  simp only [nefProcessFile, hifds]
  rw [if_pos hlen]

/-- Witness for `nefProcessFile_zero_length_error`: on `nefFile10` the tag
interpretation succeeds with length 0 and `ProcessFile` fails as stated. -/
theorem nefProcessFile_zero_length_error_witness :
    nefProcessFile true {} (some nefFile10) (fun _ => none) =
      some ({}, some (GoErr.invalidJpegLength 0), false) :=
  nefProcessFile_zero_length_error true {} nefFile10 (fun _ => none) {} none
    (by decide) (by decide)

/-- Claim C10: `parseDateTime` is not total — `c10Input` splits into two
space tokens, three date and three time sub-tokens, its month token is in the
lookup table, but its year token has fewer than 4 characters, so the
unguarded `dateTokens[0][3]` indexing panics instead of producing a format
error. -/
theorem parseDateTime_short_year_panic :
    (splitChar ' ' c10Input).length = 2 ∧
    (splitChar ':' ((splitChar ' ' c10Input).getD 0 [])).length = 3 ∧
    (splitChar ':' ((splitChar ' ' c10Input).getD 1 [])).length = 3 ∧
    (toRfc822Date (splitChar ':' ((splitChar ' ' c10Input).getD 0 []))).isSome = true ∧
    ((splitChar ':' ((splitChar ' ' c10Input).getD 0 [])).getD 0 []).length < 4 ∧
    parseDateTime c10Input = dtResult.panicked := by
  decide

/-- The first byte of the 1-byte slice at position `k` is the `k`-th byte. -/
theorem getD_take_one_drop (f : List Nat) (k : Nat) :
    ((f.drop k).take 1).getD 0 0 = f.getD k 0 := by
  simp [List.getD_eq_getElem?_getD, List.getElem?_take, List.getElem?_drop]

/-- A read entirely inside the file succeeds and delivers the corresponding
slice. -/
theorem readField_success (off : Int) (n : Nat) (f : List Nat) (h0 : 0 ≤ off)
    (hn : off.toNat + n ≤ f.length) :
    readField off n f = ((f.drop off.toNat).take n, none) := by
  simp only [readField, readAtBytes, if_neg (show ¬ off < 0 by omega)]
  have hlen : ((f.drop off.toNat).take n).length = n := by
    simp only [List.length_take, List.length_drop]
    omega
  simp [hlen]

/-- A nonempty read at a nonnegative offset succeeds exactly when it stays
inside the file. -/
theorem readField_eq_none_iff (off : Int) (n : Nat) (f : List Nat) (h0 : 0 ≤ off)
    (hn : 0 < n) : (readField off n f).2 = none ↔ off.toNat + n ≤ f.length := by
  have hgl : (readAtBytes f off n).length = min n (f.length - off.toNat) := by
    simp [readAtBytes, if_neg (show ¬ off < 0 by omega)]
  constructor
  · intro h
    simp only [readField] at h
    by_cases hc : (readAtBytes f off n).length = n
    · rw [hgl] at hc
      omega
    · rw [if_neg hc] at h
      exact absurd h (by simp)
  · intro h
    have hc : (readAtBytes f off n).length = n := by
      rw [hgl]
      omega
    simp only [readField]
    rw [if_pos hc]

/-- A nonempty read running past end of file reports an error. -/
theorem readField_short (off : Int) (n : Nat) (f : List Nat) (h0 : 0 ≤ off) (hn : 0 < n)
    (h : f.length < off.toNat + n) : (readField off n f).2 ≠ none := by
  rw [Ne, readField_eq_none_iff off n f h0 hn]
  omega

/-- Once the byte-order marker has been read, every branch of the NEF header
parse records the same flag: marker value equal to `0x4D4D`. -/
theorem nefProcessHeader_isBigEndian (isHostLe : Bool) (f : List Nat)
    (h : (readField 0 2 f).2 = none) :
    (nefProcessHeader isHostLe f).1.isBigEndian =
      (bytesToUShort isHostLe false (readField 0 2 f).1 == 0x4D4D) := by
  simp only [nefProcessHeader, h]
  split
  · rfl
  · split
    · rfl
    · rfl

/-- Once the byte-order marker has been read, every branch of the CR2 header
parse records the same flag: marker value equal to `0x4D4D`. -/
theorem cr2ProcessHeader_isBigEndian (isHostLe : Bool) (f : List Nat)
    (h : (readField 0 2 f).2 = none) :
    (cr2ProcessHeader isHostLe f).1.isBigEndian =
      (bytesToUShort isHostLe false (readField 0 2 f).1 == 0x4D4D) := by
  simp only [cr2ProcessHeader, h]
  split
  · rfl
  · split
    · rfl
    · split
      · rfl
      · split
        · rfl
        · split
          · rfl
          · rfl

/-- Claim C8: for both header parsers and on either host endianness, the
header's `isBigEndian` flag is set exactly when the 2-byte byte-order marker
at offset 0 is `0x4D4D` (that is, both marker bytes are `0x4D`; any other
marker yields `false`). -/
theorem processHeader_byte_order_marker (isHostLe : Bool) (f : List Nat)
    (hb : ∀ b ∈ f, b < 256) (hlen : 2 ≤ f.length) :
    ((nefProcessHeader isHostLe f).1.isBigEndian = true ↔
      f.getD 0 0 = 0x4D ∧ f.getD 1 0 = 0x4D) ∧
    ((cr2ProcessHeader isHostLe f).1.isBigEndian = true ↔
      f.getD 0 0 = 0x4D ∧ f.getD 1 0 = 0x4D) := by
  match f, hlen with
  | a :: b :: rest, _ =>
    have ha : a < 256 := hb a (by simp)
    have hb2 : b < 256 := hb b (by simp)
    have hL : (a :: b :: rest).length = rest.length + 2 := by simp
    have h0 : (readField 0 2 (a :: b :: rest)).2 = none := by
      rw [readField_eq_none_iff _ _ _ (by norm_num) (by norm_num)]
      omega
    rw [nefProcessHeader_isBigEndian isHostLe _ h0, cr2ProcessHeader_isBigEndian isHostLe _ h0]
    have hr : (readField 0 2 (a :: b :: rest)).1 = [a, b] := by
      rw [readField_success _ _ _ (by norm_num) (by omega)]
      rfl
    rw [hr]
    have hv : bytesToUShort isHostLe false [a, b] = b % 256 * 256 + a % 256 := rfl
    rw [hv]
    have hgd0 : (a :: b :: rest).getD 0 0 = a := rfl
    have hgd1 : (a :: b :: rest).getD 1 0 = b := rfl
    rw [hgd0, hgd1]
    constructor <;>
      · rw [beq_iff_eq]
        constructor
        · intro hEq
          omega
        · rintro ⟨rfl, rfl⟩
          norm_num

/-- Claim C9's witness-friendly general form: once every primitive read at the
header offsets succeeds, both header parsers return with no error, the TIFF
magic being whatever 2-byte value sits at offset 2 (42 is not enforced), the
root-IFD offset whatever 4-byte value sits at offset 4, and (for CR2) the
container magic/version fields whatever bytes sit at offsets 8–11: no field
value is validated. -/
theorem processHeader_accepts_all_field_values (isHostLe : Bool) (f : List Nat) :
    (8 ≤ f.length →
      (nefProcessHeader isHostLe f).2 = none ∧
      (nefProcessHeader isHostLe f).1.tiffMagicValue =
        bytesToUShort isHostLe (nefProcessHeader isHostLe f).1.isBigEndian
          ((f.drop 2).take 2) ∧
      (nefProcessHeader isHostLe f).1.tiffOffset =
        (bytesToUInt isHostLe (nefProcessHeader isHostLe f).1.isBigEndian
          ((f.drop 4).take 4) : Int)) ∧
    (12 ≤ f.length →
      (cr2ProcessHeader isHostLe f).2 = none ∧
      (cr2ProcessHeader isHostLe f).1.tiffMagicValue =
        bytesToUShort isHostLe (cr2ProcessHeader isHostLe f).1.isBigEndian
          ((f.drop 2).take 2) ∧
      (cr2ProcessHeader isHostLe f).1.tiffOffset =
        (bytesToUInt isHostLe (cr2ProcessHeader isHostLe f).1.isBigEndian
          ((f.drop 4).take 4) : Int) ∧
      (cr2ProcessHeader isHostLe f).1.cr2MagicValue =
        bytesToASCIIString ((f.drop 8).take 2) ∧
      (cr2ProcessHeader isHostLe f).1.cr2MajorValue = f.getD 10 0 % 256 ∧
      (cr2ProcessHeader isHostLe f).1.cr2MinorValue = f.getD 11 0 % 256) := by
  constructor
  · intro h8
    have r0 := readField_success 0 2 f (by omega) (by omega)
    have r2 := readField_success 2 2 f (by omega) (by omega)
    have r4 := readField_success 4 4 f (by omega) (by omega)
    simp only [nefProcessHeader, r0, r2, r4]
    refine ⟨trivial, rfl, rfl⟩
  · intro h12
    have r0 := readField_success 0 2 f (by omega) (by omega)
    have r2 := readField_success 2 2 f (by omega) (by omega)
    have r4 := readField_success 4 4 f (by omega) (by omega)
    have r8 := readField_success 8 2 f (by omega) (by omega)
    have r10 := readField_success 10 1 f (by omega) (by omega)
    have r11 := readField_success 11 1 f (by omega) (by omega)
    simp only [cr2ProcessHeader, r0, r2, r4, r8, r10, r11]
    refine ⟨trivial, rfl, rfl, rfl, ?_, ?_⟩
    · rw [getD_take_one_drop]
      rfl
    · rw [getD_take_one_drop]
      rfl

/-- Witness for `processHeader_byte_order_marker` at the marker `"MM"`. -/
theorem processHeader_byte_order_marker_witness :
    (nefProcessHeader true [0x4D, 0x4D]).1.isBigEndian = true ∧
    (cr2ProcessHeader true [0x4D, 0x4D]).1.isBigEndian = true := by
  have h := processHeader_byte_order_marker true [0x4D, 0x4D] (by decide) (by decide)
  exact ⟨h.1.mpr (by decide), h.2.mpr (by decide)⟩

/-- Witness for `processHeader_accepts_all_field_values`: a TIFF magic of
`0x99` (not 42) is accepted without error by both parsers. -/
theorem processHeader_accepts_all_field_values_witness :
    (nefProcessHeader true nefMagic99).2 = none ∧
    (nefProcessHeader true nefMagic99).1.tiffMagicValue = 0x99 ∧
    (cr2ProcessHeader true cr2Magic99).2 = none ∧
    (cr2ProcessHeader true cr2Magic99).1.tiffMagicValue = 0x99 ∧
    (0x99 : Nat) ≠ 42 := by
  have h1 := (processHeader_accepts_all_field_values true nefMagic99).1 (by decide)
  have h2 := (processHeader_accepts_all_field_values true cr2Magic99).2 (by decide)
  exact ⟨h1.1, h1.2.1.trans (by decide), h2.1, h2.2.1.trans (by decide), by decide⟩

/-- Claim C5: in both tag interpreters an entry with tag `0x0112` sets the
orientation to `270·π/180` radians (coefficient `rot270Rads`) exactly when
the short extracted from the 4-byte value field is 8, and to `0.0` radians
otherwise; the short is the high 16 bits of the field for a big-endian file
and the low 16 bits otherwise. -/
theorem orientation_tag_rule (isHostLe isFileBe : Bool) (f : List Nat) (en : ifdEntry)
    (rest : List ifdEntry) (j : jpegInfo) (d : Option goDateTime) (es : Option GoErr)
    (htag : en.tag = 0x0112) :
    nefIfdLoop isHostLe isFileBe f (en :: rest) j d =
      nefIfdLoop isHostLe isFileBe f rest
        { j with orientation :=
            if processShortValue isFileBe en.valueOffset = 8 then rot270Rads else 0 } d ∧
    cr2IfdLoop isHostLe isFileBe f (en :: rest) j d es =
      cr2IfdLoop isHostLe isFileBe f rest
        { j with orientation :=
            if processShortValue isFileBe en.valueOffset = 8 then rot270Rads else 0 } d es ∧
    ((if processShortValue isFileBe en.valueOffset = 8 then rot270Rads else 0) = rot270Rads ↔
      processShortValue isFileBe en.valueOffset = 8) ∧
    (processShortValue isFileBe en.valueOffset ≠ 8 →
      (if processShortValue isFileBe en.valueOffset = 8 then rot270Rads else 0) = 0) ∧
    processShortValue isFileBe en.valueOffset =
      (if isFileBe then en.valueOffset / 2 ^ 16 % 2 ^ 16 else en.valueOffset % 2 ^ 16) := by
  refine ⟨?_, ?_, ?_, ?_, ?_⟩
  · simp [nefIfdLoop, htag]
  · simp [cr2IfdLoop, htag]
  · by_cases h : processShortValue isFileBe en.valueOffset = 8
    · simp [h]
    · rw [if_neg h]
      exact iff_of_false (by decide) h
  · intro h
    simp [h]
  · have hp : (2 : Nat) ^ 16 = 65536 := by norm_num
    rw [hp]
    rcases isFileBe with _ | _ <;> simp [processShortValue]

/-- Witness for `orientation_tag_rule`: an orientation entry carrying the
short 8 (little-endian file) rotates by `rot270Rads` in both interpreters. -/
theorem orientation_tag_rule_witness :
    nefIfdLoop true false [] [⟨0x0112, 3, 1, 8⟩] {} none =
      some ({ orientation := rot270Rads }, none, none) ∧
    cr2IfdLoop true false [] [⟨0x0112, 3, 1, 8⟩] {} none none =
      some ({ orientation := rot270Rads }, none, none) := by
  have h := orientation_tag_rule true false [] ⟨0x0112, 3, 1, 8⟩ [] {} none none rfl
  constructor
  · rw [h.1]
    decide
  · rw [h.2.1]
    decide

/-- Claim C6: `processRationalEntry` reads numerator and denominator as two
consecutive 4-byte unsigned integers at the value offset, and the ratio is
the truncating unsigned integer division widened to a float — exactly the
rational `(num / den : ℕ)` — when the denominator is positive, and `0.0` when
the denominator is zero; in particular 72/32 yields 2, not the true quotient
72/32 = 9/4. -/
theorem processRationalEntry_truncating (isHostLe isFileBe : Bool) (offset : Nat)
    (f : List Nat) (hlen : offset + 8 ≤ f.length) :
    processRationalEntry isHostLe isFileBe offset f =
      (bytesToUInt isHostLe isFileBe ((f.drop offset).take 4),
       bytesToUInt isHostLe isFileBe ((f.drop (offset + 4)).take 4),
       (if 0 < bytesToUInt isHostLe isFileBe ((f.drop (offset + 4)).take 4) then
          ((bytesToUInt isHostLe isFileBe ((f.drop offset).take 4) /
            bytesToUInt isHostLe isFileBe ((f.drop (offset + 4)).take 4) : Nat) : ℚ)
        else 0), none) ∧
    processRationalEntry true false 0 ratSample = (72, 32, 2, none) ∧
    (mkRat 72 32 ≠ ((72 / 32 : Nat) : ℚ)) := by
  refine ⟨?_, by decide, by decide⟩
  have rn := readField_success (offset : Int) 4 f (by omega) (by omega)
  have rd := readField_success ((offset : Int) + 4) 4 f (by omega) (by omega)
  have e0 : ((offset : Int)).toNat = offset := by omega
  have e4 : ((offset : Int) + 4).toNat = offset + 4 := by omega
  rw [e0] at rn
  rw [e4] at rd
  simp only [processRationalEntry, rn, rd]

/-- Witness for `processRationalEntry_truncating` at `ratSample`. -/
theorem processRationalEntry_truncating_witness :
    processRationalEntry true false 0 ratSample = (72, 32, 2, none) := by
  have h := (processRationalEntry_truncating true false 0 ratSample (by decide)).1
  exact h.trans (by decide)

/-- When all reads stay inside the file, the IFD record loop appends exactly
the `n` records described by `ifdEntriesSpec` and reports no error. -/
theorem processIfdLoop_success (isHostLe isFileBe : Bool) (f : List Nat) :
    ∀ (n : Nat) (off : Int) (acc : List ifdEntry), 0 ≤ off →
      off.toNat + 12 * n ≤ f.length →
      processIfdLoop isHostLe isFileBe f n off acc none =
        (acc ++ ifdEntriesSpec isHostLe isFileBe f n off, none) := by
  intro n
  induction n with
  | zero =>
    intro off acc h0 hb
    simp [processIfdLoop, ifdEntriesSpec]
  | succ m ih =>
    intro off acc h0 hb
    have r1 : (readField off 2 f).2 = none := by
      rw [readField_eq_none_iff _ _ _ h0 (by norm_num)]
      omega
    have r2 : (readField (off + 2) 2 f).2 = none := by
      rw [readField_eq_none_iff _ _ _ (by omega) (by norm_num)]
      omega
    have r3 : (readField (off + 4) 4 f).2 = none := by
      rw [readField_eq_none_iff _ _ _ (by omega) (by norm_num)]
      omega
    have r4 : (readField (off + 8) 4 f).2 = none := by
      rw [readField_eq_none_iff _ _ _ (by omega) (by norm_num)]
      omega
    simp only [processIfdLoop, r1, r2, r3, r4]
    rw [ih (off + 12) _ (by omega) (by omega)]
    simp [ifdEntriesSpec, ifdEntryAt]

/-- When the `n` records run past end of file, the IFD record loop reports an
error (regardless of the pending entry-count-read error). -/
theorem processIfdLoop_fail (isHostLe isFileBe : Bool) (f : List Nat) :
    ∀ (n : Nat) (off : Int) (acc : List ifdEntry) (e0 : Option GoErr), 0 ≤ off → 0 < n →
      f.length < off.toNat + 12 * n →
      (processIfdLoop isHostLe isFileBe f n off acc e0).2 ≠ none := by
  intro n
  induction n with
  | zero =>
    intro off acc e0 h0 hn hb
    exact absurd hn (by omega)
  | succ m ih =>
    intro off acc e0 h0 _ hb
    rcases hr1 : (readField off 2 f).2 with _ | e1
    · rcases hr2 : (readField (off + 2) 2 f).2 with _ | e2
      · rcases hr3 : (readField (off + 4) 4 f).2 with _ | e3
        · rcases hr4 : (readField (off + 8) 4 f).2 with _ | e4
          · have hbound : (off + 8).toNat + 4 ≤ f.length := by
              rw [← readField_eq_none_iff _ _ _ (by omega) (by norm_num)]
              exact hr4
            have hm : 0 < m := by omega
            simp only [processIfdLoop, hr1, hr2, hr3, hr4]
            exact ih (off + 12) _ none (by omega) hm (by omega)
          · simp [processIfdLoop, hr1, hr2, hr3, hr4]
        · simp [processIfdLoop, hr1, hr2, hr3]
      · simp [processIfdLoop, hr1, hr2]
    · simp [processIfdLoop, hr1]

/-- Claim C4: `processIfd` decodes the 2-byte entry count `n` at `offset` and
then exactly `n` consecutive 12-byte `{tag:u16, fieldType:u16, count:u32,
valueOrOffset:u32}` records starting at `offset + 2`, 12 bytes apart and in
directory order, under the host/file endianness rule; and whenever any
underlying read would run past end of file — in particular for a hostile or
huge entry count — it returns an I/O error instead of traversing further. -/
theorem processIfd_decodes_count_records (isHostLe isFileBe : Bool) (offset : Int)
    (f : List Nat) (n : Nat) (hoff : 0 ≤ offset)
    (hn : ifdEntryCountAt isHostLe isFileBe offset f = n) :
    (offset.toNat + 2 + 12 * n ≤ f.length →
      processIfd isHostLe isFileBe offset f =
        (ifdEntriesSpec isHostLe isFileBe f n (offset + 2), none)) ∧
    (f.length < offset.toNat + 2 + 12 * n →
      (processIfd isHostLe isFileBe offset f).2 ≠ none) := by
  unfold ifdEntryCountAt at hn
  constructor
  · intro hb
    have r0 : (readField offset 2 f).2 = none := by
      rw [readField_eq_none_iff _ _ _ hoff (by norm_num)]
      omega
    simp only [processIfd, hn, r0]
    rw [processIfdLoop_success isHostLe isFileBe f n (offset + 2) [] (by omega) (by omega)]
    simp
  · intro hb
    simp only [processIfd, hn]
    by_cases r0 : (readField offset 2 f).2 = none
    · have hbound : offset.toNat + 2 ≤ f.length := by
        rw [← readField_eq_none_iff _ _ _ hoff (by norm_num)]
        exact r0
      have hnpos : 0 < n := by omega
      exact processIfdLoop_fail isHostLe isFileBe f n (offset + 2) [] _ (by omega) hnpos
        (by omega)
    · rcases Nat.eq_zero_or_pos n with h0 | hpos
      · subst h0
        exact r0
      · have hshort : f.length < offset.toNat + 2 := by
          by_contra hge
          exact r0 ((readField_eq_none_iff _ _ _ hoff (by norm_num)).mpr (by omega))
        exact processIfdLoop_fail isHostLe isFileBe f n (offset + 2) [] _ (by omega) hpos
          (by omega)

/-- Witness for `processIfd_decodes_count_records`: a one-record IFD decodes
to its record, and bumping the count to 2 surfaces a read error. -/
theorem processIfd_decodes_count_records_witness :
    processIfd true false 0 ifdSample = ([⟨0x0111, 3, 1, 8⟩], none) ∧
    (processIfd true false 0 ifdSampleShort).2 ≠ none := by
  constructor
  · have h := (processIfd_decodes_count_records true false 0 ifdSample 1 (by decide)
      (by decide)).1 (by decide)
    exact h.trans (by decide)
  · exact (processIfd_decodes_count_records true false 0 ifdSampleShort 2 (by decide)
      (by decide)).2 (by decide)

/-- `strings.Split` never returns an empty slice. -/
theorem splitChar_ne_nil (sep : Char) (l : List Char) : splitChar sep l ≠ [] := by
  induction l with
  | nil => simp [splitChar]
  | cons c cs ih =>
    simp only [splitChar]
    rcases h : splitChar sep cs with _ | ⟨t, ts⟩
    · exact absurd h ih
    · by_cases hc : c = sep <;> simp [hc]

/-- Splitting a separator-free string yields that single field. -/
theorem splitChar_no_sep (sep : Char) (t : List Char) (ht : ∀ c ∈ t, ¬(c = sep)) :
    splitChar sep t = [t] := by
  induction t with
  | nil => rfl
  | cons c cs ih =>
    have hcs : ∀ x ∈ cs, ¬(x = sep) := fun x hx => ht x (List.mem_cons_of_mem _ hx)
    simp only [splitChar, ih hcs]
    rw [if_neg (ht c (List.mem_cons_self c cs))]

/-- Splitting peels off a leading separator-free field. -/
theorem splitChar_append_sep (sep : Char) (t rest : List Char)
    (ht : ∀ c ∈ t, ¬(c = sep)) :
    splitChar sep (t ++ sep :: rest) = t :: splitChar sep rest := by
  induction t with
  | nil =>
    simp only [List.nil_append, splitChar]
    rcases h : splitChar sep rest with _ | ⟨r, rs⟩
    · exact absurd h (splitChar_ne_nil sep rest)
    · simp
  | cons c cs ih =>
    have hcs : ∀ x ∈ cs, ¬(x = sep) := fun x hx => ht x (List.mem_cons_of_mem _ hx)
    simp only [List.cons_append, splitChar]
    have ih2 : splitChar sep (cs.append (sep :: rest)) = cs :: splitChar sep rest := ih hcs
    rw [ih2]
    simp [ht c (List.mem_cons_self c _)]

/-- Fields produced by splitting never contain the separator. -/
theorem splitChar_parts_no_sep (sep : Char) :
    ∀ (l p : List Char), p ∈ splitChar sep l → ∀ c ∈ p, ¬(c = sep) := by
  intro l
  induction l with
  | nil =>
    intro p hp c hc
    simp only [splitChar, List.mem_singleton] at hp
    subst hp
    simp at hc
  | cons x xs ih =>
    intro p hp c hc
    rcases h : splitChar sep xs with _ | ⟨t, ts⟩
    · exact absurd h (splitChar_ne_nil sep xs)
    · simp only [splitChar, h] at hp
      by_cases hx : x = sep
      · rw [if_pos hx] at hp
        rcases List.mem_cons.mp hp with hp1 | hp1
        · subst hp1
          simp at hc
        · exact ih p (by rw [h]; exact hp1) c hc
      · rw [if_neg hx] at hp
        rcases List.mem_cons.mp hp with hp1 | hp1
        · subst hp1
          rcases List.mem_cons.mp hc with hc1 | hc1
          · subst hc1
            exact hx
          · exact ih t (by rw [h]; exact List.mem_cons_self t ts) c hc1
        · exact ih p (by rw [h]; exact List.mem_cons_of_mem t hp1) c hc

/-- A digit character is not a space. -/
theorem digit_ne_space {c : Char} (h : c.isDigit = true) : ¬(c = ' ') := by
  rintro rfl
  exact absurd h (by decide)

/-- A digit character is not a colon. -/
theorem digit_ne_colon {c : Char} (h : c.isDigit = true) : ¬(c = ':') := by
  rintro rfl
  exact absurd h (by decide)

/-- `getnum` on two leading digits. -/
theorem goGetnum_digits (fixed : Bool) {a b : Char} (ha : a.isDigit = true)
    (hb : b.isDigit = true) (rest : List Char) :
    goGetnum fixed (a :: b :: rest) = some (10 * dval a + dval b, rest) := by
  simp [goGetnum, ha, hb]

/-- The year step on two leading digits. -/
theorem goAtoiYear_digits {c1 c2 : Char} (h1 : c1.isDigit = true) (h2 : c2.isDigit = true)
    (rest : List Char) :
    goAtoiYear (c1 :: c2 :: rest) = some (((10 * dval c1 + dval c2 : Nat) : Int), rest) := by
  simp [goAtoiYear, h1, h2]

/-- Every month abbreviation in the table is matched by the parse-side month
lookup, consuming exactly its three characters. -/
theorem goMonthLookup_abbrev {mt ab : List Char} {mn : Nat}
    (hmem : (mt, ab, mn) ∈ monthTable) (rest : List Char) :
    goMonthLookup (ab ++ rest) = some (mn, rest) := by
  fin_cases hmem <;> simp [goMonthLookup, monthTable]

/-- A month token present in the table makes `toRfc822Date` yield its
abbreviation. -/
theorem toRfc822Date_mem {mt ab : List Char} {mn : Nat}
    (hmem : (mt, ab, mn) ∈ monthTable) (toks : List (List Char))
    (h : toks.getD 1 [] = mt) : toRfc822Date toks = some ab := by
  simp only [toRfc822Date, h]
  fin_cases hmem <;> decide

/-- The characters of a month token in the table are digits. -/
theorem monthTable_key_digits {mt ab : List Char} {mn : Nat}
    (hmem : (mt, ab, mn) ∈ monthTable) : ∀ c ∈ mt, c.isDigit = true := by
  fin_cases hmem <;> decide

/-- An input that does not split on the space into exactly two tokens is
rejected. -/
theorem parseDateTime_wrong_space_tokens (s : List Char)
    (h : (splitChar ' ' s).length ≠ 2) :
    parseDateTime s = dtResult.failed GoErr.invalidDateTime := by
  simp only [parseDateTime]
  rw [if_neg h]

/-- An input whose date or time token does not split on `':'` into exactly
three sub-tokens is rejected. -/
theorem parseDateTime_wrong_colon_tokens (s dt tt : List Char)
    (hs : splitChar ' ' s = [dt, tt])
    (h : ¬((splitChar ':' dt).length = 3 ∧ (splitChar ':' tt).length = 3)) :
    parseDateTime s = dtResult.failed GoErr.invalidDateTime := by
  simp [parseDateTime, hs, h]

/-- A month sub-token outside the exact `"01"`..`"12"` lookup table is
rejected with the invalid-month error. -/
theorem parseDateTime_invalid_month (s dt tt y mo d : List Char)
    (hs : splitChar ' ' s = [dt, tt])
    (hd : splitChar ':' dt = [y, mo, d])
    (htt : (splitChar ':' tt).length = 3)
    (hm : ∀ r ∈ monthTable, ¬(mo = r.1)) :
    parseDateTime s = dtResult.failed GoErr.invalidMonth := by
  have hfind : toRfc822Date [y, mo, d] = none := by
    simp only [toRfc822Date]
    rw [List.find?_eq_none.mpr]
    · simp
    · intro r hr
      simp only [decide_eq_true_eq]
      exact fun hEq => hm r hr hEq.symm
  simp [parseDateTime, hs, hd, htt, hfind]

/-- Characters of a split field come from the split string. -/
theorem splitChar_parts_subset (sep : Char) :
    ∀ (l p : List Char), p ∈ splitChar sep l → ∀ c ∈ p, c ∈ l := by
  intro l
  induction l with
  | nil =>
    intro p hp c hc
    simp only [splitChar, List.mem_singleton] at hp
    subst hp
    simp at hc
  | cons x xs ih =>
    intro p hp c hc
    rcases h : splitChar sep xs with _ | ⟨t, ts⟩
    · exact absurd h (splitChar_ne_nil sep xs)
    · simp only [splitChar, h] at hp
      by_cases hx : x = sep
      · rw [if_pos hx] at hp
        rcases List.mem_cons.mp hp with hp1 | hp1
        · subst hp1
          simp at hc
        · exact List.mem_cons_of_mem x (ih p (by rw [h]; exact hp1) c hc)
      · rw [if_neg hx] at hp
        rcases List.mem_cons.mp hp with hp1 | hp1
        · subst hp1
          rcases List.mem_cons.mp hc with hc1 | hc1
          · subst hc1
            exact List.mem_cons_self c xs
          · exact List.mem_cons_of_mem x
              (ih t (by rw [h]; exact List.mem_cons_self t ts) c hc1)
        · exact List.mem_cons_of_mem x (ih p (by rw [h]; exact List.mem_cons_of_mem t hp1) c hc)

/-- A fixed two-digit `getnum` fails when either leading character is not a
digit. -/
theorem goGetnum_fixed_two_bad {n1 n2 : Char}
    (h : ¬(n1.isDigit = true ∧ n2.isDigit = true)) (rest : List Char) :
    goGetnum true (n1 :: n2 :: rest) = none := by
  by_cases h1 : n1.isDigit = true
  · have h2 : ¬(n2.isDigit = true) := fun h2 => h ⟨h1, h2⟩
    simp [goGetnum, h1, h2]
  · simp [goGetnum, h1]

/-- The signed-year variant of the `atoi` step succeeds on a sign followed by
a digit. -/
theorem goAtoiYear_signed {c1 c2 : Char} (h1 : c1 = '-' ∨ c1 = '+')
    (h2 : c2.isDigit = true) (rest : List Char) :
    ∃ v, goAtoiYear (c1 :: c2 :: rest) = some (v, rest) := by
  rcases h1 with rfl | rfl <;> simp [goAtoiYear, h2]

/-- The hour-minute tail fails whenever the hour token or the minute token
contains a non-digit in its two-character shape. -/
theorem goParseHM_malformed (hh mm : List Char)
    (hhh_nocolon : ∀ c ∈ hh, ¬(c = ':'))
    (hbad2 :
      (∃ h1 h2, hh = [h1, h2] ∧ ¬(h1.isDigit = true ∧ h2.isDigit = true)) ∨
      (∃ n1 n2, mm = [n1, n2] ∧ ¬(n1.isDigit = true ∧ n2.isDigit = true))) :
    goParseHM (hh ++ ':' :: mm) = none := by
  have hcod : (':' : Char).isDigit = false := by decide
  rcases hh with _ | ⟨h1, hht⟩
  · simp [goParseHM, goGetnum, hcod]
  rcases hht with _ | ⟨h2, hht2⟩
  · -- hh = [h1]: a one-digit (or failing) hour; failure must come from the minute
    by_cases hh1 : h1.isDigit = true
    · rcases hbad2 with ⟨h1', h2', hEq, _⟩ | ⟨n1, n2, rfl, hnd⟩
      · exact absurd hEq (by simp)
      · have hhour : goGetnum false (h1 :: ':' :: n1 :: n2 :: []) =
            some (dval h1, ':' :: n1 :: n2 :: []) := by
          simp [goGetnum, hh1, hcod]
        simp [goParseHM, hhour, goExpect, goGetnum_fixed_two_bad hnd]
    · simp [goParseHM, goGetnum, hh1]
  rcases hht2 with _ | ⟨hx, hht3⟩
  · -- hh = [h1, h2]
    by_cases hh1 : h1.isDigit = true
    · by_cases hh2 : h2.isDigit = true
      · rcases hbad2 with ⟨h1', h2', hEq, hnd⟩ | ⟨n1, n2, rfl, hnd⟩
        · injection hEq with e1 e2
          injection e2 with e2 e3
          subst e1
          subst e2
          exact absurd ⟨hh1, hh2⟩ hnd
        · simp [goParseHM, goGetnum_digits false hh1 hh2, goExpect,
            goGetnum_fixed_two_bad hnd]
      · have hc : ¬(h2 = ':') := hhh_nocolon h2 (by simp)
        simp [goParseHM, goGetnum, hh1, hh2, goExpect, hc]
    · simp [goParseHM, goGetnum, hh1]
  · -- hh = h1 :: h2 :: hx :: hht3: the leftover hour characters hit the ':' literal
    have hcx : ¬(hx = ':') := hhh_nocolon hx (by simp)
    by_cases hh1 : h1.isDigit = true
    · by_cases hh2 : h2.isDigit = true
      · simp [goParseHM, goGetnum_digits false hh1 hh2, goExpect, hcx]
      · have hc : ¬(h2 = ':') := hhh_nocolon h2 (by simp)
        simp [goParseHM, goGetnum, hh1, hh2, goExpect, hc]
    · simp [goParseHM, goGetnum, hh1]

set_option maxHeartbeats 1000000 in
/-- `goTimeParse` fails on the reassembled string whenever the day, year,
hour or minute field is malformed as in claim C7's error clause. -/
theorem goTimeParse_malformed (dk ab mt : List Char) (mn : Nat) (c2 c3 : Char)
    (hh mm : List Char)
    (hmem : (mt, ab, mn) ∈ monthTable)
    (hdk_nosp : ∀ c ∈ dk, ¬(c = ' '))
    (hhh_nocolon : ∀ c ∈ hh, ¬(c = ':'))
    (hbad :
      (∃ d1 d2, dk = [d1, d2] ∧ ¬(d1.isDigit = true ∧ d2.isDigit = true)) ∨
      (¬(c2.isDigit = true ∧ c3.isDigit = true) ∧
        ¬((c2 = '-' ∨ c2 = '+') ∧ c3.isDigit = true)) ∨
      (∃ h1 h2, hh = [h1, h2] ∧ ¬(h1.isDigit = true ∧ h2.isDigit = true)) ∨
      (∃ n1 n2, mm = [n1, n2] ∧ ¬(n1.isDigit = true ∧ n2.isDigit = true))) :
    goTimeParse (dk ++ ' ' :: (ab ++ ' ' :: c2 :: c3 :: ' ' :: (hh ++ ':' :: mm))) = none := by
  have hspd : (' ' : Char).isDigit = false := by decide
  rcases dk with _ | ⟨d1, dkt⟩
  · simp [goTimeParse, goGetnum, hspd]
  rcases dkt with _ | ⟨d2, dkt2⟩
  · by_cases hd1 : d1.isDigit = true <;> simp [goTimeParse, goGetnum, hd1, hspd]
  rcases dkt2 with _ | ⟨dx, dtl⟩
  · -- dk = [d1, d2]
    by_cases hd1 : d1.isDigit = true
    case neg => simp [goTimeParse, goGetnum, hd1]
    by_cases hd2 : d2.isDigit = true
    case neg => simp [goTimeParse, goGetnum, hd1, hd2]
    -- the day parses; handle the remaining failure sites
    rcases hbad with ⟨d1', d2', hEq, hnd⟩ | ⟨hyA, hyB⟩ | hhBad | hmBad
    · injection hEq with e1 e2
      injection e2 with e2 e3
      subst e1
      subst e2
      exact absurd ⟨hd1, hd2⟩ hnd
    · simp [goTimeParse, goGetnum_digits true hd1 hd2, goExpect, goMonthLookup_abbrev hmem,
        goAtoiYear, hyA, hyB]
    · by_cases hyA : c2.isDigit = true ∧ c3.isDigit = true
      · have hPM := goParseHM_malformed hh mm hhh_nocolon (Or.inl hhBad)
        simp [goTimeParse, goGetnum_digits true hd1 hd2, goExpect, goMonthLookup_abbrev hmem,
          goAtoiYear_digits hyA.1 hyA.2, hPM]
      · by_cases hyB : (c2 = '-' ∨ c2 = '+') ∧ c3.isDigit = true
        · obtain ⟨v, hv⟩ := goAtoiYear_signed hyB.1 hyB.2 (' ' :: (hh ++ ':' :: mm))
          have hPM := goParseHM_malformed hh mm hhh_nocolon (Or.inl hhBad)
          simp [goTimeParse, goGetnum_digits true hd1 hd2, goExpect,
            goMonthLookup_abbrev hmem, hv, hPM]
        · simp [goTimeParse, goGetnum_digits true hd1 hd2, goExpect,
            goMonthLookup_abbrev hmem, goAtoiYear, hyA, hyB]
    · by_cases hyA : c2.isDigit = true ∧ c3.isDigit = true
      · have hPM := goParseHM_malformed hh mm hhh_nocolon (Or.inr hmBad)
        simp [goTimeParse, goGetnum_digits true hd1 hd2, goExpect, goMonthLookup_abbrev hmem,
          goAtoiYear_digits hyA.1 hyA.2, hPM]
      · by_cases hyB : (c2 = '-' ∨ c2 = '+') ∧ c3.isDigit = true
        · obtain ⟨v, hv⟩ := goAtoiYear_signed hyB.1 hyB.2 (' ' :: (hh ++ ':' :: mm))
          have hPM := goParseHM_malformed hh mm hhh_nocolon (Or.inr hmBad)
          simp [goTimeParse, goGetnum_digits true hd1 hd2, goExpect,
            goMonthLookup_abbrev hmem, hv, hPM]
        · simp [goTimeParse, goGetnum_digits true hd1 hd2, goExpect,
            goMonthLookup_abbrev hmem, goAtoiYear, hyA, hyB]
  · -- dk = d1 :: d2 :: dx :: dtl
    have hdx : ¬(dx = ' ') := hdk_nosp dx (by simp)
    by_cases hd1 : d1.isDigit = true
    · by_cases hd2 : d2.isDigit = true
      · simp [goTimeParse, goGetnum_digits true hd1 hd2, goExpect, hdx]
      · simp [goTimeParse, goGetnum, hd1, hd2]
    · simp [goTimeParse, goGetnum, hd1]

/-- An input that tokenises correctly and has a valid month but a non-numeric
day, year, hour or minute field is rejected with the time-parse error. -/
theorem parseDateTime_nonnumeric_field (s dt tt : List Char)
    (y1 y2 c2 c3 : Char) (ytail : List Char) (mt ab : List Char) (mn : Nat)
    (dk hh mm ss : List Char)
    (hs : splitChar ' ' s = [dt, tt])
    (hd : splitChar ':' dt = [y1 :: y2 :: c2 :: c3 :: ytail, mt, dk])
    (htt : splitChar ':' tt = [hh, mm, ss])
    (hmem : (mt, ab, mn) ∈ monthTable)
    (hbad :
      (∃ d1 d2, dk = [d1, d2] ∧ ¬(d1.isDigit = true ∧ d2.isDigit = true)) ∨
      (¬(c2.isDigit = true ∧ c3.isDigit = true) ∧
        ¬((c2 = '-' ∨ c2 = '+') ∧ c3.isDigit = true)) ∨
      (∃ h1 h2, hh = [h1, h2] ∧ ¬(h1.isDigit = true ∧ h2.isDigit = true)) ∨
      (∃ n1 n2, mm = [n1, n2] ∧ ¬(n1.isDigit = true ∧ n2.isDigit = true))) :
    parseDateTime s = dtResult.failed GoErr.timeParseErr := by
  have hdt_mem : dt ∈ splitChar ' ' s := by
    rw [hs]
    simp
  have htt_mem : tt ∈ splitChar ' ' s := by
    rw [hs]
    simp
  have hdk_mem : dk ∈ splitChar ':' dt := by
    rw [hd]
    simp
  have hhh_mem : hh ∈ splitChar ':' tt := by
    rw [htt]
    simp
  have hdk_nosp : ∀ c ∈ dk, ¬(c = ' ') := fun c hc =>
    splitChar_parts_no_sep ' ' s dt hdt_mem c (splitChar_parts_subset ':' dt dk hdk_mem c hc)
  have hhh_nocolon : ∀ c ∈ hh, ¬(c = ':') := fun c hc =>
    splitChar_parts_no_sep ':' tt hh hhh_mem c hc
  have hrfc : toRfc822Date [y1 :: y2 :: c2 :: c3 :: ytail, mt, dk] = some ab :=
    toRfc822Date_mem hmem _ rfl
  have hTP := goTimeParse_malformed dk ab mt mn c2 c3 hh mm hmem hdk_nosp hhh_nocolon hbad
  simp [parseDateTime, hs, hd, htt, hrfc, hTP]

/-- A well-formed `YYYY:MM:DD HH:MM:SS` timestamp — all-digit fields, month
token in the table, valid hour, minute, and calendar day — parses to exactly
its components with the year taken from the last two digits and the seconds
token discarded. -/
theorem parseDateTime_wellformed (y1 y2 y3 y4 m1 m2 d1 d2 h1 h2 n1 n2 s1 s2 : Char)
    (ab : List Char) (mn : Nat)
    (hy1 : y1.isDigit = true) (hy2 : y2.isDigit = true)
    (hy3 : y3.isDigit = true) (hy4 : y4.isDigit = true)
    (hmem : ([m1, m2], ab, mn) ∈ monthTable)
    (hd1 : d1.isDigit = true) (hd2 : d2.isDigit = true)
    (hh1 : h1.isDigit = true) (hh2 : h2.isDigit = true)
    (hn1 : n1.isDigit = true) (hn2 : n2.isDigit = true)
    (hs1 : s1.isDigit = true) (hs2 : s2.isDigit = true)
    (hhour : 10 * dval h1 + dval h2 < 24)
    (hmin : 10 * dval n1 + dval n2 < 60)
    (hdaylo : 1 ≤ 10 * dval d1 + dval d2)
    (hdayhi : 10 * dval d1 + dval d2 ≤
      goDaysIn mn (goYearFrom2 ((10 * dval y3 + dval y4 : Nat) : Int))) :
    parseDateTime
        [y1, y2, y3, y4, ':', m1, m2, ':', d1, d2, ' ',
         h1, h2, ':', n1, n2, ':', s1, s2] =
      dtResult.ok
        ⟨goYearFrom2 ((10 * dval y3 + dval y4 : Nat) : Int), mn, 10 * dval d1 + dval d2,
         10 * dval h1 + dval h2, 10 * dval n1 + dval n2, 0⟩ := by
  have hm1 : m1.isDigit = true := monthTable_key_digits hmem m1 (by simp)
  have hm2 : m2.isDigit = true := monthTable_key_digits hmem m2 (by simp)
  have hsp : splitChar ' '
      [y1, y2, y3, y4, ':', m1, m2, ':', d1, d2, ' ', h1, h2, ':', n1, n2, ':', s1, s2] =
      [[y1, y2, y3, y4, ':', m1, m2, ':', d1, d2], [h1, h2, ':', n1, n2, ':', s1, s2]] := by
    rw [show [y1, y2, y3, y4, ':', m1, m2, ':', d1, d2, ' ', h1, h2, ':', n1, n2, ':', s1, s2] =
      [y1, y2, y3, y4, ':', m1, m2, ':', d1, d2] ++ ' ' ::
        [h1, h2, ':', n1, n2, ':', s1, s2] from rfl]
    rw [splitChar_append_sep ' ' _ _ ?nosp1, splitChar_no_sep ' ' _ ?nosp2]
    case nosp1 =>
      intro c hc
      simp only [List.mem_cons, List.not_mem_nil, or_false] at hc
      rcases hc with rfl | rfl | rfl | rfl | rfl | rfl | rfl | rfl | rfl | rfl
      exacts [digit_ne_space hy1, digit_ne_space hy2, digit_ne_space hy3,
        digit_ne_space hy4, by decide, digit_ne_space hm1, digit_ne_space hm2,
        by decide, digit_ne_space hd1, digit_ne_space hd2]
    case nosp2 =>
      intro c hc
      simp only [List.mem_cons, List.not_mem_nil, or_false] at hc
      rcases hc with rfl | rfl | rfl | rfl | rfl | rfl | rfl | rfl
      exacts [digit_ne_space hh1, digit_ne_space hh2, by decide, digit_ne_space hn1,
        digit_ne_space hn2, by decide, digit_ne_space hs1, digit_ne_space hs2]
  have hsd : splitChar ':' [y1, y2, y3, y4, ':', m1, m2, ':', d1, d2] =
      [[y1, y2, y3, y4], [m1, m2], [d1, d2]] := by
    rw [show [y1, y2, y3, y4, ':', m1, m2, ':', d1, d2] =
      [y1, y2, y3, y4] ++ ':' :: ([m1, m2] ++ ':' :: [d1, d2]) from rfl]
    rw [splitChar_append_sep ':' _ _ ?noc1]
    rw [splitChar_append_sep ':' _ _ ?noc2, splitChar_no_sep ':' _ ?noc3]
    case noc1 =>
      intro c hc
      simp only [List.mem_cons, List.not_mem_nil, or_false] at hc
      rcases hc with rfl | rfl | rfl | rfl
      exacts [digit_ne_colon hy1, digit_ne_colon hy2, digit_ne_colon hy3,
        digit_ne_colon hy4]
    case noc2 =>
      intro c hc
      simp only [List.mem_cons, List.not_mem_nil, or_false] at hc
      rcases hc with rfl | rfl
      exacts [digit_ne_colon hm1, digit_ne_colon hm2]
    case noc3 =>
      intro c hc
      simp only [List.mem_cons, List.not_mem_nil, or_false] at hc
      rcases hc with rfl | rfl
      exacts [digit_ne_colon hd1, digit_ne_colon hd2]
  have hst : splitChar ':' [h1, h2, ':', n1, n2, ':', s1, s2] =
      [[h1, h2], [n1, n2], [s1, s2]] := by
    rw [show [h1, h2, ':', n1, n2, ':', s1, s2] =
      [h1, h2] ++ ':' :: ([n1, n2] ++ ':' :: [s1, s2]) from rfl]
    rw [splitChar_append_sep ':' _ _ ?noc4]
    rw [splitChar_append_sep ':' _ _ ?noc5, splitChar_no_sep ':' _ ?noc6]
    case noc4 =>
      intro c hc
      simp only [List.mem_cons, List.not_mem_nil, or_false] at hc
      rcases hc with rfl | rfl
      exacts [digit_ne_colon hh1, digit_ne_colon hh2]
    case noc5 =>
      intro c hc
      simp only [List.mem_cons, List.not_mem_nil, or_false] at hc
      rcases hc with rfl | rfl
      exacts [digit_ne_colon hn1, digit_ne_colon hn2]
    case noc6 =>
      intro c hc
      simp only [List.mem_cons, List.not_mem_nil, or_false] at hc
      rcases hc with rfl | rfl
      exacts [digit_ne_colon hs1, digit_ne_colon hs2]
  have hrfc : toRfc822Date [[y1, y2, y3, y4], [m1, m2], [d1, d2]] = some ab :=
    toRfc822Date_mem hmem _ rfl
  have h24 : ¬(24 ≤ 10 * dval h1 + dval h2) := by omega
  have h60 : ¬(60 ≤ 10 * dval n1 + dval n2) := by omega
  have hHM : goParseHM (h1 :: h2 :: ':' :: n1 :: n2 :: []) =
      some (10 * dval h1 + dval h2, 10 * dval n1 + dval n2) := by
    simp [goParseHM, goGetnum_digits false hh1 hh2, goExpect,
      goGetnum_digits true hn1 hn2, h24, h60]
  simp [parseDateTime, hsp, hsd, hst, hrfc, goTimeParse,
    goGetnum_digits true hd1 hd2, goExpect, goMonthLookup_abbrev hmem,
    goAtoiYear_digits hy3 hy4, hHM]

/-- Claim C7: `parseDateTime` on a well-formed `YYYY:MM:DD HH:MM:SS` string
returns the timestamp with that day, month, two-digit year, hour and minute,
always discarding the seconds (concretely `"2010:08:10 12:11:07"` parses to
10 Aug 2010, 12:11:00), and returns an error whenever the input does not
split on a single space into two tokens, or a date/time token does not split
on `':'` into three sub-tokens, or the month sub-token is outside the exact
`"01"`..`"12"` table, or a remaining field (day, year digits, hour, minute)
is non-numeric. -/
theorem parseDateTime_spec :
    parseDateTime c7Example = dtResult.ok ⟨2010, 8, 10, 12, 11, 0⟩ ∧
    (∀ (y1 y2 y3 y4 m1 m2 d1 d2 h1 h2 n1 n2 s1 s2 : Char) (ab : List Char) (mn : Nat),
      y1.isDigit = true → y2.isDigit = true → y3.isDigit = true → y4.isDigit = true →
      ([m1, m2], ab, mn) ∈ monthTable →
      d1.isDigit = true → d2.isDigit = true → h1.isDigit = true → h2.isDigit = true →
      n1.isDigit = true → n2.isDigit = true → s1.isDigit = true → s2.isDigit = true →
      10 * dval h1 + dval h2 < 24 → 10 * dval n1 + dval n2 < 60 →
      1 ≤ 10 * dval d1 + dval d2 →
      10 * dval d1 + dval d2 ≤
        goDaysIn mn (goYearFrom2 ((10 * dval y3 + dval y4 : Nat) : Int)) →
      parseDateTime
          [y1, y2, y3, y4, ':', m1, m2, ':', d1, d2, ' ',
           h1, h2, ':', n1, n2, ':', s1, s2] =
        dtResult.ok
          ⟨goYearFrom2 ((10 * dval y3 + dval y4 : Nat) : Int), mn,
           10 * dval d1 + dval d2, 10 * dval h1 + dval h2, 10 * dval n1 + dval n2, 0⟩) ∧
    (∀ s : List Char, (splitChar ' ' s).length ≠ 2 →
      parseDateTime s = dtResult.failed GoErr.invalidDateTime) ∧
    (∀ s dt tt : List Char, splitChar ' ' s = [dt, tt] →
      ¬((splitChar ':' dt).length = 3 ∧ (splitChar ':' tt).length = 3) →
      parseDateTime s = dtResult.failed GoErr.invalidDateTime) ∧
    (∀ s dt tt y mo d : List Char, splitChar ' ' s = [dt, tt] →
      splitChar ':' dt = [y, mo, d] → (splitChar ':' tt).length = 3 →
      (∀ r ∈ monthTable, ¬(mo = r.1)) →
      parseDateTime s = dtResult.failed GoErr.invalidMonth) ∧
    (∀ (s dt tt : List Char) (y1 y2 c2 c3 : Char) (ytail mt ab : List Char) (mn : Nat)
      (dk hh mm ss : List Char),
      splitChar ' ' s = [dt, tt] →
      splitChar ':' dt = [y1 :: y2 :: c2 :: c3 :: ytail, mt, dk] →
      splitChar ':' tt = [hh, mm, ss] →
      (mt, ab, mn) ∈ monthTable →
      ((∃ d1 d2, dk = [d1, d2] ∧ ¬(d1.isDigit = true ∧ d2.isDigit = true)) ∨
       (¬(c2.isDigit = true ∧ c3.isDigit = true) ∧
         ¬((c2 = '-' ∨ c2 = '+') ∧ c3.isDigit = true)) ∨
       (∃ h1 h2, hh = [h1, h2] ∧ ¬(h1.isDigit = true ∧ h2.isDigit = true)) ∨
       (∃ n1 n2, mm = [n1, n2] ∧ ¬(n1.isDigit = true ∧ n2.isDigit = true))) →
      parseDateTime s = dtResult.failed GoErr.timeParseErr) := by
  refine ⟨by decide, ?_, parseDateTime_wrong_space_tokens,
    parseDateTime_wrong_colon_tokens, parseDateTime_invalid_month, ?_⟩
  · intro y1 y2 y3 y4 m1 m2 d1 d2 h1 h2 n1 n2 s1 s2 ab mn hy1 hy2 hy3 hy4 hmem hd1 hd2
      hh1 hh2 hn1 hn2 hs1 hs2 hhour hmin hlo hhi
    exact parseDateTime_wellformed y1 y2 y3 y4 m1 m2 d1 d2 h1 h2 n1 n2 s1 s2 ab mn
      hy1 hy2 hy3 hy4 hmem hd1 hd2 hh1 hh2 hn1 hn2 hs1 hs2 hhour hmin hlo hhi
  · intro s dt tt y1 y2 c2 c3 ytail mt ab mn dk hh mm ss hs hd htt hmem hbad
    exact parseDateTime_nonnumeric_field s dt tt y1 y2 c2 c3 ytail mt ab mn dk hh mm ss
      hs hd htt hmem hbad

/-- Witness for `parseDateTime_spec`: a well-formed timestamp parses to its
components with seconds dropped, and one instance of each error family is
rejected. -/
theorem parseDateTime_spec_witness :
    parseDateTime "2011:12:31 23:59:58".toList = dtResult.ok ⟨2011, 12, 31, 23, 59, 0⟩ ∧
    parseDateTime "2010:13:10 12:11:07".toList = dtResult.failed GoErr.invalidMonth ∧
    parseDateTime "2010:12:10 AA:BB:CC".toList = dtResult.failed GoErr.timeParseErr ∧
    parseDateTime "2010:12 12:11:07".toList = dtResult.failed GoErr.invalidDateTime ∧
    parseDateTime "".toList = dtResult.failed GoErr.invalidDateTime := by
  refine ⟨?_, ?_, ?_, ?_, ?_⟩
  · have h := parseDateTime_spec.2.1 '2' '0' '1' '1' '1' '2' '3' '1' '2' '3' '5' '9' '5' '8'
      ['D', 'e', 'c'] 12 (by decide) (by decide) (by decide) (by decide) (by decide)
      (by decide) (by decide) (by decide) (by decide) (by decide) (by decide) (by decide)
      (by decide) (by decide) (by decide) (by decide) (by decide)
    exact h.trans (by decide)
  · exact parseDateTime_spec.2.2.2.2.1 "2010:13:10 12:11:07".toList "2010:13:10".toList
      "12:11:07".toList "2010".toList "13".toList "10".toList (by decide) (by decide)
      (by decide) (by decide)
  · exact parseDateTime_spec.2.2.2.2.2 "2010:12:10 AA:BB:CC".toList "2010:12:10".toList
      "AA:BB:CC".toList '2' '0' '1' '0' [] "12".toList "Dec".toList 12 "10".toList
      "AA".toList "BB".toList "CC".toList (by decide) (by decide) (by decide) (by decide)
      (Or.inr (Or.inr (Or.inl ⟨'A', 'A', by decide, by decide⟩)))
  · exact parseDateTime_spec.2.2.2.1 "2010:12 12:11:07".toList "2010:12".toList
      "12:11:07".toList (by decide) (by decide)
  · exact parseDateTime_spec.2.2.1 "".toList (by decide)

end RawParser
